import Mathlib

/-!
Shallow embedding of `lib/registry.js` from the node-winreg package:
a wrapper around the Windows `REG` command-line tool.  The embedding
models the pure parts of the module — option validation in the
`Registry` constructor, the `path` and `parent` getters, the regular
expressions `KEY_PATTERN`, `PATH_PATTERN` and `ITEM_PATTERN`, the
stdout-parsing loops of `values`, `keys` and `get`, and the argument
vectors built by `set` — together with the callback outcomes delivered
once the spawned process has closed with a given exit code and a given
captured stdout buffer.  Process spawning itself is the external
collaborator: a run is represented by its observable pair
(exit code, captured stdout).
-/

namespace Winreg

/-- JavaScript `\s` character class (also the set removed by
`String.prototype.trim`): ASCII whitespace, NBSP, the Unicode space
separators, the line separators U+2028/U+2029 and the BOM. -/
def jsWhitespace (c : Char) : Bool :=
  c = ' ' || c = '\t' || c = '\n' || c = '\r' ||
  c.toNat = 0xB || c.toNat = 0xC || c.toNat = 0xA0 || c.toNat = 0x1680 ||
  (0x2000 ≤ c.toNat && c.toNat ≤ 0x200A) ||
  c.toNat = 0x2028 || c.toNat = 0x2029 ||
  c.toNat = 0x202F || c.toNat = 0x205F || c.toNat = 0x3000 || c.toNat = 0xFEFF

/-- JavaScript `.` (dotAll off): any character except the four
LineTerminator characters LF, CR, U+2028 and U+2029. -/
def jsDot (c : Char) : Bool :=
  !(c = '\n' || c = '\r' || c.toNat = 0x2028 || c.toNat = 0x2029)

/-- The regex character class `[a-zA-Z0-9]`. -/
def asciiAlphanum (c : Char) : Bool :=
  ('0' ≤ c && c ≤ '9') || ('a' ≤ c && c ≤ 'z') || ('A' ≤ c && c ≤ 'Z')

/-- One character of a key segment in `KEY_PATTERN`: the class `[a-zA-Z0-9_\s]`. -/
def segmentChar (c : Char) : Bool :=
  asciiAlphanum c || c = '_' || jsWhitespace c

/-- One character of the name group of `ITEM_PATTERN`: the class `[a-zA-Z0-9_\s\\-]`. -/
def itemNameChar (c : Char) : Bool :=
  asciiAlphanum c || c = '_' || jsWhitespace c || c = '\\' || c = '-'

/-- JavaScript `String.prototype.trim`: strip `jsWhitespace` characters
from both ends. -/
def jsTrim (s : String) : String :=
  String.mk (((s.data.dropWhile jsWhitespace).reverse.dropWhile jsWhitespace).reverse)

/-- JavaScript `String.prototype.lastIndexOf` for a single character:
the index of the last occurrence, `none` standing for `-1`. -/
def lastIndexOfChar (t : Char) : List Char → Option Nat
  | [] => none
  | c :: rest =>
    match lastIndexOfChar t rest with
    | some i => some (i + 1)
    | none => if c = t then some 0 else none

/-- Helper for JavaScript `buffer.split('\n')`: `acc` holds the
current line's characters in reverse. -/
def splitNewlineAux : List Char → List Char → List String
  | [], acc => [String.mk acc.reverse]
  | c :: rest, acc =>
    if c = '\n' then String.mk acc.reverse :: splitNewlineAux rest []
    else splitNewlineAux rest (c :: acc)

/-- JavaScript `buffer.split('\n')`: the (possibly empty) chunks
between LF characters; the empty string splits to `[""]`. -/
def jsSplitNewline (s : String) : List String :=
  splitNewlineAux s.data []

/-- The module constant `HIVES = [HKLM, HKCU, HKCR, HKU, HKCC]`. -/
def HIVES : List String := ["HKLM", "HKCU", "HKCR", "HKU", "HKCC"]

/-- The module constant `REG_TYPES`, in source (= alternation) order. -/
def REG_TYPES : List String :=
  ["REG_SZ", "REG_MULTI_SZ", "REG_EXPAND_SZ", "REG_DWORD", "REG_QWORD",
   "REG_BINARY", "REG_NONE"]

/-- The long-form hive tokens of `PATH_PATTERN`, in alternation order. -/
def LONG_HIVES : List String :=
  ["HKEY_LOCAL_MACHINE", "HKEY_CURRENT_USER", "HKEY_CLASSES_ROOT",
   "HKEY_USERS", "HKEY_CURRENT_CONFIG"]

/-- State of the key-grammar scanner inside a `\segment+` group:
`seen` records whether at least one `segmentChar` has been read since
the last backslash.  The end of the string, or a fresh backslash, is
legal only when `seen` is true (each group needs one or more segment
characters); any character that is neither a backslash nor a
`segmentChar` rejects. -/
def keyGrammarSeg : List Char → Bool → Bool
  | [], seen => seen
  | c :: rest, seen =>
    if c = '\\' then seen && keyGrammarSeg rest false
    else if segmentChar c then keyGrammarSeg rest true
    else false

/-- Whole-string membership in the language of the body of
`KEY_PATTERN = /(\\[a-zA-Z0-9_\s]+)*/`: zero or more groups, each a
backslash followed by one or more `segmentChar`s.  The empty string has
zero groups; otherwise the string must open with a backslash and the
scanner `keyGrammarSeg` checks the rest (this deterministic scan
decides the regex language exactly, since a backslash is not a
`segmentChar`). -/
def keyGrammarList : List Char → Bool
  | [] => true
  | c :: rest => if c = '\\' then keyGrammarSeg rest false else false

/-- Whole-string match of the key grammar of the specification:
"zero or more segments of `\` followed by one or more
alphanumeric/underscore/whitespace characters". -/
def keyGrammarFull (s : String) : Bool :=
  keyGrammarList s.data

/-- JavaScript `KEY_PATTERN.test(s)`.  The regex is *unanchored*, so
`test` asks whether the body matches some substring: there exist a start
position `i` and a length `n` such that the `n` characters from `i` are
in the body's language. -/
def keyPatternTest (s : String) : Bool :=
  (List.range (s.data.length + 1)).any fun i =>
    (List.range (s.data.length + 1 - i)).any fun n =>
      keyGrammarList ((s.data.drop i).take n)

/-- The tail `(REG_SZ|…|REG_NONE)\s+([^\s].*)$` of `ITEM_PATTERN`,
matched against the characters following the name group and its single
`\s`.  Alternatives are tried in source order (no token is a prefix of
another, so at most one alternative can start a match); `\s+` greedily
takes the maximal whitespace run, after which `[^\s]` needs one
non-whitespace character and `.*$` needs the rest of the line to be free
of line terminators (shrinking `\s+` can never help, since the freed
character is whitespace and fails `[^\s]`).  Returns the captures
(group 2, group 3). -/
def matchTypeTail (cs : List Char) : Option (String × String) :=
  REG_TYPES.findSome? fun t =>
    if t.data.isPrefixOf cs then
      let rest := cs.drop t.data.length
      let wsRun := rest.takeWhile jsWhitespace
      let rem := rest.drop wsRun.length
      if 0 < wsRun.length then
        match rem with
        | [] => none
        | c :: tail =>
          if !jsWhitespace c && tail.all jsDot then
            some (t, String.mk rem)
          else none
      else none
    else none

/-- JavaScript `ITEM_PATTERN.exec(s)` for
`/^([a-zA-Z0-9_\s\\-]+)\s(REG_SZ|…|REG_NONE)\s+([^\s].*)$/`: the greedy
name group `[a-zA-Z0-9_\s\\-]+` first takes the maximal run of class
characters and backtracks one character at a time (lengths tried in
decreasing order down to 1); after it, one `\s` character and then the
type/value tail must match.  Returns the captures
(group 1, group 2, group 3), or `none` when the line does not match. -/
def itemPatternExec (s : String) : Option (String × String × String) :=
  let cs := s.data
  let maxRun := (cs.takeWhile itemNameChar).length
  ((List.range maxRun).map fun k => maxRun - k).findSome? fun n =>
    match cs.drop n with
    | [] => none
    | c :: rest =>
      if jsWhitespace c then
        (matchTypeTail rest).map fun p => (String.mk (cs.take n), p.1, p.2)
      else none

/-- JavaScript `PATH_PATTERN.exec(s)` for
`/^(HKEY_LOCAL_MACHINE|…|HKEY_CURRENT_CONFIG)(.*)$/`: the line must
start with one of the long-form hive tokens (no token is a prefix of
another) and the remainder, captured by `(.*)`, must contain no line
terminator.  Returns the captures (group 1, group 2). -/
def pathPatternExec (s : String) : Option (String × String) :=
  LONG_HIVES.findSome? fun h =>
    if h.data.isPrefixOf s.data then
      let rest := s.data.drop h.data.length
      if rest.all jsDot then some (h, String.mk rest) else none
    else none

/-- The `options` argument of the `Registry` constructor.  Each field is
either absent/`undefined` (`none`) or a string; `some ""` is the falsy
empty string.  (Non-string falsy values such as `null`, `0` or `false`
behave exactly like `none`: the `||` default is chosen before the `''+`
string coercion ever sees them.) -/
structure RegOptions where
  host : Option String
  hive : Option String
  key : Option String
deriving Repr, DecidableEq

/-- A constructed `Registry` object: its private members
`_host`, `_hive`, `_key`. -/
structure Reg where
  host : String
  hive : String
  key : String
deriving Repr, DecidableEq

/-- A `RegistryItem` value record. -/
structure RegistryItem where
  host : String
  hive : String
  key : String
  name : String
  type : String
  value : String
deriving Repr, DecidableEq

/-- The synchronous failures the module can raise or report:
the two constructor validation errors, the `set` type validation error,
the `ReferenceError` raised by the `path` getter when `_host` is
non-empty (the getter reads the undeclared identifier `host`), and the
`process exited with code c` error produced on a non-zero exit. -/
inductive JsError where
  | illegalHive
  | illegalKey
  | illegalType
  | referenceError
  | processExit (code : Int)
deriving Repr, DecidableEq

deriving instance DecidableEq for Except

/-- JavaScript `v || d` for an absent-or-string value `v` and a string
default `d`: the default is taken when `v` is absent or falsy (the empty
string); `'' + _` on the surviving string is the identity. -/
def jsOr (v : Option String) (d : String) : String :=
  match v with
  | none => d
  | some s => if s = "" then d else s

/-- The `Registry(options)` constructor: defaulting of the three option
fields (`'' + (_options.host || '')`, hive defaulting to `HKLM`), then
validation — `HIVES.indexOf(_hive) == -1` throws `illegal hive
specified.` and `!KEY_PATTERN.test(_key)` throws `illegal key
specified.`.  A missing `options` object (`options || {}`) is the
`none` argument. -/
def registryNew (options : Option RegOptions) : Except JsError Reg :=
  let o := options.getD { host := none, hive := none, key := none }
  let host := jsOr o.host ""
  let hive := jsOr o.hive "HKLM"
  let key := jsOr o.key ""
  if !(HIVES.contains hive) then .error .illegalHive
  else if !(keyPatternTest key) then .error .illegalKey
  else .ok { host := host, hive := hive, key := key }

/-- The `path` getter:
`(_host.length == 0 ? '' : '\\\\' + host + '\\') + _hive + _key`.
When `_host` is empty the first operand is `''` and the result is
`_hive + _key`; when `_host` is non-empty the expression reads the
identifier `host`, which is declared nowhere in scope (the private
member is `_host`), so evaluation throws a `ReferenceError`. -/
def pathGetter (r : Reg) : Except JsError String :=
  if r.host.length = 0 then .ok (r.hive ++ r.key)
  else .error .referenceError

/-- Key computation of the `parent` getter:
`i = _key.lastIndexOf('\\')`, then `(i == -1) ? '' : _key.substring(0, i)`
(the `none` branch yields the empty character list, i.e. `''`). -/
def parentKeyList (cs : List Char) : List Char :=
  match lastIndexOfChar '\\' cs with
  | none => []
  | some i => cs.take i

/-- The `parent` getter: a new `Registry` with the same host and hive
and the `parentKeyList` key. -/
def parentGetter (r : Reg) : Except JsError Reg :=
  registryNew (some { host := some r.host, hive := some r.hive,
                      key := some (String.mk (parentKeyList r.key.data)) })

/-- The shared line-preprocessing loop of `values` and `get`: iterate
over `buffer.split('\n')`, trim each line, skip empty lines, and — via
the `lineNumber != 0` guard — skip the first non-empty line as well
(the queried path echoed back by the tool).  `n` is the running
`lineNumber`. -/
def collectSkipFirst : List String → Nat → List String
  | [], _ => []
  | l :: ls, n =>
    let t := jsTrim l
    if t.length > 0 then
      (if n ≠ 0 then [t] else []) ++ collectSkipFirst ls (n + 1)
    else collectSkipFirst ls n

/-- The `items` array built by the preprocessing loop of `values` and
of `get` from the captured stdout buffer. -/
def retainedItems (buffer : String) : List String :=
  collectSkipFirst (jsSplitNewline buffer) 0

/-- The line-preprocessing loop of `keys`: trim each line and keep
every non-empty one (this loop has no `lineNumber` guard). -/
def collectAllTrimmed : List String → List String
  | [] => []
  | l :: ls =>
    let t := jsTrim l
    (if t.length > 0 then [t] else []) ++ collectAllTrimmed ls

/-- The `items` array built by the preprocessing loop of `keys`. -/
def keysItems (buffer : String) : List String :=
  collectAllTrimmed (jsSplitNewline buffer)

/-- Declarative description of the shared preprocessing: split on
newlines, trim every line, discard the empty ones. -/
def nonEmptyTrimmedLines (buffer : String) : List String :=
  ((jsSplitNewline buffer).map jsTrim).filter fun l => l.length > 0

/-- Build a `RegistryItem` from an `ITEM_PATTERN` match, as the bodies
of `values` and `get` do: `match[1].trim()`, `match[2].trim()`,
`match[3]` unaltered, host/hive/key taken from the queried registry. -/
def itemOfMatch (self : Reg) (m : String × String × String) : RegistryItem :=
  { host := self.host, hive := self.hive, key := self.key,
    name := jsTrim m.1, type := jsTrim m.2.1, value := m.2.2 }

/-- The item-extraction loop of `values`: run `ITEM_PATTERN` on each
retained line, turning matches into records and skipping lines that do
not match. -/
def valuesExtract (self : Reg) : List String → List RegistryItem
  | [] => []
  | it :: rest =>
    match itemPatternExec it with
    | some m => itemOfMatch self m :: valuesExtract self rest
    | none => valuesExtract self rest

/-- The `close` handler of `values`: a non-zero exit code reports
`process exited with code c`; on exit code 0 the captured buffer is
preprocessed and every retained line matching `ITEM_PATTERN` becomes a
`RegistryItem`. -/
def valuesOnClose (self : Reg) (code : Int) (buffer : String) :
    Except JsError (List RegistryItem) :=
  if code ≠ 0 then .error (.processExit code)
  else .ok (valuesExtract self (retainedItems buffer))

/-- The `close` handler of `get`: a non-zero exit code reports
`process exited with code c`; on exit code 0 only `items[0] || ''` is
run through `ITEM_PATTERN`, a match producing the single record and a
non-match producing the `null` result. -/
def getOnClose (self : Reg) (code : Int) (buffer : String) :
    Except JsError (Option RegistryItem) :=
  if code ≠ 0 then .error (.processExit code)
  else
    match itemPatternExec ((retainedItems buffer).headD "") with
    | some m => .ok (some (itemOfMatch self m))
    | none => .ok none

/-- The item-extraction loop of the stdout `end` handler of `keys`: run
`PATH_PATTERN` on each retained line; when it matches, the captured
remainder `key` is accepted if it is truthy (non-empty) and differs
from the queried key, in which case `new Registry({host: self.host,
hive: self.hive, key: key})` is pushed (a constructor throw would
propagate out of the handler). -/
def keysExtract (self : Reg) : List String → Except JsError (List Reg)
  | [] => .ok []
  | it :: rest =>
    match pathPatternExec it with
    | some m =>
      if m.2 ≠ "" ∧ m.2 ≠ self.key then
        match registryNew (some { host := some self.host, hive := some self.hive,
                                  key := some m.2 }) with
        | .ok child => (keysExtract self rest).map fun l => child :: l
        | .error e => .error e
      else keysExtract self rest
    | none => keysExtract self rest

/-- The stdout `end` handler of `keys`, applied to the captured
buffer. -/
def keysOnEnd (self : Reg) (buffer : String) : Except JsError (List Reg) :=
  keysExtract self (keysItems buffer)

/-- The error argument a callback receives from an operation outcome:
the error itself on failure, `null` on success. -/
def cbErr {α : Type} : Except JsError α → Option JsError
  | .error e => some e
  | .ok _ => none

/-- `keyExists`, given the outcome of the underlying `values` run: its
callback executes `cb(err, err === null ? true : false)`, so the pair
delivered is the `values` error (passed through unchanged) and the
boolean telling whether that error was `null`. -/
def keyExistsOutcome (self : Reg) (code : Int) (buffer : String) :
    Option JsError × Bool :=
  let err := cbErr (valuesOnClose self code buffer)
  (err, if err = none then true else false)

/-- `set(name, type, value, cb)` up to the spawn: first the type
validation `REG_TYPES.indexOf(type) == -1` throws `illegal type
specified.` (before `this.path` is read), then the argument vector
`ADD <path>` + (`/ve` if `name == ''` else `/v <name>`) +
`/t <type> /d <value> /f` is built; reading `this.path` can itself
throw (non-empty host). -/
def setInvocation (r : Reg) (name ty value : String) :
    Except JsError (List String) :=
  if !(REG_TYPES.contains ty) then .error .illegalType
  else
    match pathGetter r with
    | .error e => .error e
    | .ok path =>
      .ok (["ADD", path] ++ (if name = "" then ["/ve"] else ["/v", name]) ++
           ["/t", ty, "/d", value, "/f"])

/-- Helper splitting the tail of a key at backslashes; `acc` holds the
current segment's characters in reverse. -/
def keySegsAux : List Char → List Char → List (List Char)
  | [], acc => [acc.reverse]
  | c :: rest, acc =>
    if c = '\\' then acc.reverse :: keySegsAux rest []
    else keySegsAux rest (c :: acc)

/-- The segment list of a grammar-valid key: for each `\segment` group,
the segment's characters.  (Meaningful on strings accepted by
`keyGrammarList`, whose characters are segment characters and the
backslashes separating the groups.) -/
def keySegs : List Char → List (List Char)
  | [] => []
  | _c :: rest => keySegsAux rest []

/-- Rebuild a key from a segment list: each segment preceded by a
backslash. -/
def joinSegs : List (List Char) → List Char
  | [] => []
  | s :: rest => '\\' :: s ++ joinSegs rest

/-- The key of the parent location as the specification words it: the
key with its last backslash-delimited segment removed (the empty key —
the hive root — has no segments and stays empty). -/
def specParentKey (k : String) : String :=
  String.mk (joinSegs ((keySegs k.data).dropLast))

/-- Root cause of the vacuous key validation: `KEY_PATTERN` is
unanchored and its body is nullable (zero groups), so at position 0 the
empty match always succeeds and `test` accepts every string. -/
theorem keyPatternTest_true (s : String) : keyPatternTest s = true := by
  unfold keyPatternTest
  rw [List.any_eq_true]
  refine ⟨0, List.mem_range.mpr (Nat.succ_pos _), ?_⟩
  rw [List.any_eq_true]
  exact ⟨0, List.mem_range.mpr (by omega), by simp [keyGrammarList]⟩

/-- Defaulting with the empty string is the identity on strings. -/
theorem jsOr_some_default_empty (s : String) : jsOr (some s) "" = s := by
  by_cases h : s = "" <;> simp [jsOr, h]

/-- Defaulting never fires on a non-empty (truthy) string. -/
theorem jsOr_some_of_ne (s d : String) (h : s ≠ "") : jsOr (some s) d = s := by
  simp [jsOr, h]

/-- Every member of `HIVES` is a non-empty string. -/
theorem hive_ne_empty {h : String} (hh : HIVES.contains h = true) : h ≠ "" := by
  intro he
  subst he
  exact absurd hh (by decide)

/-- Constructing a `Registry` from explicit string options with a legal
hive always succeeds and stores the three strings unchanged (the key
test never fails, by `keyPatternTest_true`). -/
theorem registryNew_ok (host hive key : String) (hh : HIVES.contains hive = true) :
    registryNew (some { host := some host, hive := some hive, key := some key }) =
      .ok { host := host, hive := hive, key := key } := by
  have hm : hive ∈ HIVES := by simpa using hh
  simp [registryNew, jsOr_some_default_empty, jsOr_some_of_ne hive "HKLM" (hive_ne_empty hh),
    hm, keyPatternTest_true]

/-- Once past the first non-empty line (`lineNumber ≠ 0`), the
`values`/`get` preprocessing loop keeps every non-empty trimmed line. -/
theorem collectSkipFirst_of_pos (ls : List String) :
    ∀ n, n ≠ 0 →
      collectSkipFirst ls n = (ls.map jsTrim).filter fun l => l.length > 0 := by
  induction ls with
  | nil => intro n _; rfl
  | cons l ls ih =>
    intro n hn
    by_cases hl : (jsTrim l).length > 0
    · simp [collectSkipFirst, hl, hn, ih (n + 1) (by omega), List.filter_cons]
    · simp [collectSkipFirst, hl, ih n hn, List.filter_cons]

/-- The `values`/`get` preprocessing equals the declarative
"split/trim/discard empties" pipeline with its first line dropped. -/
theorem retainedItems_eq (buffer : String) :
    retainedItems buffer = (nonEmptyTrimmedLines buffer).drop 1 := by
  unfold retainedItems nonEmptyTrimmedLines
  generalize jsSplitNewline buffer = ls
  induction ls with
  | nil => rfl
  | cons l ls ih =>
    by_cases hl : (jsTrim l).length > 0
    · simp [collectSkipFirst, hl, collectSkipFirst_of_pos ls 1 one_ne_zero,
        List.filter_cons]
    · simp [collectSkipFirst, hl, List.filter_cons, ih]

/-- The `keys` preprocessing equals the declarative
"split/trim/discard empties" pipeline with no line dropped. -/
theorem keysItems_eq (buffer : String) :
    keysItems buffer = nonEmptyTrimmedLines buffer := by
  unfold keysItems nonEmptyTrimmedLines
  generalize jsSplitNewline buffer = ls
  induction ls with
  | nil => rfl
  | cons l ls ih =>
    by_cases hl : (jsTrim l).length > 0
    · simp [collectAllTrimmed, hl, List.filter_cons, ih]
    · simp [collectAllTrimmed, hl, List.filter_cons, ih]

/-- The `values` extraction loop is exactly a filterMap over the
retained lines: matching lines become records, non-matching lines are
dropped and can never produce an error. -/
theorem valuesExtract_eq (self : Reg) (items : List String) :
    valuesExtract self items =
      items.filterMap fun it => (itemPatternExec it).map (itemOfMatch self) := by
  induction items with
  | nil => rfl
  | cons it rest ih =>
    cases h : itemPatternExec it with
    | none => simp [valuesExtract, h, List.filterMap_cons, ih]
    | some m => simp [valuesExtract, h, List.filterMap_cons, ih]

/-- C1 (code_bug evidence): key validation in the `Registry`
constructor is vacuous.  `KEY_PATTERN.test` accepts every string (the
regex is unanchored and nullable), so an options object whose key
violates the key grammar — here `"foo"`, which has no leading
backslash — still constructs successfully, contradicting the claimed
`InvalidArgument` failure. -/
theorem c1_key_validation_vacuous :
    (∀ s : String, keyPatternTest s = true) ∧
    keyGrammarFull "foo" = false ∧
    registryNew (some { host := none, hive := some "HKLM", key := some "foo" }) =
      .ok { host := "", hive := "HKLM", key := "foo" } :=
  ⟨keyPatternTest_true, by decide, by decide⟩

/-- C2 (code_bug evidence): the `path` getter only implements the
claimed UNC derivation for an empty host; for a non-empty host it
evaluates the undeclared identifier `host` (the member is `_host`) and
throws a `ReferenceError` instead of returning `\\host\hive + key`. -/
theorem c2_path (r : Reg) :
    (r.host = "" → pathGetter r = .ok (r.hive ++ r.key)) ∧
    (r.host ≠ "" → pathGetter r = .error .referenceError) := by
  constructor
  · intro h
    simp [pathGetter, h]
  · intro h
    have : r.host.length ≠ 0 := by
      intro hl
      exact h (by cases hr : r.host with
        | mk l => cases l with
          | nil => rfl
          | cons c cs => simp [hr, String.length, List.length] at hl)
    simp [pathGetter, this]

/-- Witness for C2's theorem at concrete registries: a local registry
yields `hive + key`, a remote one throws. -/
theorem c2_path_witness :
    pathGetter { host := "", hive := "HKCU", key := "\\Software" } =
      .ok ("HKCU" ++ "\\Software") ∧
    pathGetter { host := "remote", hive := "HKLM", key := "" } =
      .error .referenceError :=
  ⟨(c2_path { host := "", hive := "HKCU", key := "\\Software" }).1 rfl,
   (c2_path { host := "remote", hive := "HKLM", key := "" }).2 (by decide)⟩

/-- C3 counterexample: for a list-subkeys capture the first remaining
non-empty line (the echoed queried path) is NOT discarded during
preprocessing — it survives into the item-extraction stage, refuting
the claim that all three output shapes drop it. -/
theorem c3_counterexample :
    keysItems "HKEY_LOCAL_MACHINE\\SOFTWARE\n\nHKEY_LOCAL_MACHINE\\SOFTWARE\\Foo\n" =
      ["HKEY_LOCAL_MACHINE\\SOFTWARE", "HKEY_LOCAL_MACHINE\\SOFTWARE\\Foo"] ∧
    (nonEmptyTrimmedLines
        "HKEY_LOCAL_MACHINE\\SOFTWARE\n\nHKEY_LOCAL_MACHINE\\SOFTWARE\\Foo\n").head? =
      some "HKEY_LOCAL_MACHINE\\SOFTWARE" := by
  decide

/-- C3 (amended): for every captured buffer, the `values` and `get`
preprocessing trims, discards empties and drops the first remaining
line, while the `keys` preprocessing retains every non-empty trimmed
line (its echoed path is instead rejected later, by the key-equality
guard). -/
theorem c3_preprocessing (buffer : String) :
    retainedItems buffer = (nonEmptyTrimmedLines buffer).drop 1 ∧
    keysItems buffer = nonEmptyTrimmedLines buffer :=
  ⟨retainedItems_eq buffer, keysItems_eq buffer⟩

/-- C4 counterexample: on exit code 0, `get` inspects only the first
retained line.  Here the first retained line `???` does not match the
value grammar while the second does, yet the delivered result is
`null` — refuting the claim that the record comes from the first
retained line that matches. -/
theorem c4_counterexample :
    getOnClose { host := "", hive := "HKCU", key := "\\K" } 0
        "HKEY_CURRENT_USER\\K\n???\nSample    REG_SZ    hello\n" = .ok none ∧
    ((retainedItems "HKEY_CURRENT_USER\\K\n???\nSample    REG_SZ    hello\n").any
        fun l => (itemPatternExec l).isSome) = true := by
  decide

/-- C4 (amended): on exit code 0, `get` delivers the record parsed from
the first retained line if that very line matches the value grammar and
`null` otherwise (later retained lines are never examined), with a null
error in both cases; a non-zero exit delivers the process error
instead. -/
theorem c4_get_first_line (self : Reg) (code : Int) (buffer : String) :
    getOnClose self code buffer =
      if code = 0 then
        .ok (Option.map (itemOfMatch self)
          (itemPatternExec (((nonEmptyTrimmedLines buffer).drop 1).headD "")))
      else .error (.processExit code) := by
  rw [getOnClose, ← retainedItems_eq]
  by_cases hc : code = 0
  · simp only [hc, if_neg (by omega : ¬ (0 : Int) ≠ 0), if_pos rfl]
    cases h : itemPatternExec ((retainedItems buffer).headD "") <;> simp [h]
  · simp [hc]

/-- C5 counterexample: when the underlying `values` run fails (exit
code 1), `keyExists` delivers `exists = false` but passes the process
error through instead of the claimed null error. -/
theorem c5_counterexample :
    keyExistsOutcome { host := "", hive := "HKCU", key := "\\A" } 1 "" =
      (some (.processExit 1), false) ∧
    (some (JsError.processExit 1) : Option JsError) ≠ none := by
  decide

/-- C5 (amended): `keyExists` maps a zero exit of the underlying
`values` run to `(null error, true)` and a non-zero exit to
`(the process-exit error passed through, false)` — the error is
forwarded, not suppressed. -/
theorem c5_keyExists (self : Reg) (code : Int) (buffer : String) :
    keyExistsOutcome self code buffer =
      if code = 0 then (none, true)
      else (some (.processExit code), false) := by
  by_cases hc : code = 0 <;>
    simp [keyExistsOutcome, valuesOnClose, cbErr, hc]

/-- C7: the `values` parser, fed the capture "echoed path, blank line,
`Sample    REG_SZ    hello world`", yields exactly one record with
name `Sample`, type `REG_SZ` and value `hello world` (internal
whitespace preserved); and in general, on exit code 0, the retained
lines that match the grammar become records in order while non-matching
lines are silently skipped and never produce a record or an error. -/
theorem c7_values_sample :
    valuesOnClose { host := "", hive := "HKCU", key := "\\K" } 0
        "HKEY_CURRENT_USER\\K\n\nSample    REG_SZ    hello world\n" =
      .ok [{ host := "", hive := "HKCU", key := "\\K",
             name := "Sample", type := "REG_SZ", value := "hello world" }] ∧
    ∀ (self : Reg) (buffer : String),
      valuesOnClose self 0 buffer =
        .ok ((retainedItems buffer).filterMap fun it =>
          (itemPatternExec it).map (itemOfMatch self)) :=
  ⟨by decide, fun self buffer => by
    simp [valuesOnClose, valuesExtract_eq]⟩

/-- C10: with no options object, with all fields absent, or with all
fields falsy (empty strings), the constructor defaults host to `""`,
hive to `HKLM` and key to `""`, and construction succeeds. -/
theorem c10_defaults :
    registryNew none = .ok { host := "", hive := "HKLM", key := "" } ∧
    registryNew (some { host := none, hive := none, key := none }) =
      .ok { host := "", hive := "HKLM", key := "" } ∧
    registryNew (some { host := some "", hive := some "", key := some "" }) =
      .ok { host := "", hive := "HKLM", key := "" } := by
  decide

/-- C6: for every captured key-listing text and every registry with a
legal hive, the subkey extraction of `keys` succeeds and every returned
location has a key different from the queried key (in particular the
echoed long-form path of the queried key itself is excluded) and
inherits the query's host and hive. -/
theorem c6_keys_self_exclusion (self : Reg) (buffer : String)
    (hh : HIVES.contains self.hive = true) :
    ∃ l, keysOnEnd self buffer = .ok l ∧
      ∀ e ∈ l, e.key ≠ self.key ∧ e.host = self.host ∧ e.hive = self.hive := by
  unfold keysOnEnd
  generalize keysItems buffer = items
  induction items with
  | nil => exact ⟨[], rfl, by simp⟩
  | cons it rest ih =>
    obtain ⟨l, hl, hinv⟩ := ih
    cases hm : pathPatternExec it with
    | none => exact ⟨l, by simp [keysExtract, hm, hl], hinv⟩
    | some m =>
      by_cases hg : m.2 ≠ "" ∧ m.2 ≠ self.key
      · refine ⟨{ host := self.host, hive := self.hive, key := m.2 } :: l, ?_, ?_⟩
        · simp [keysExtract, hm, hg, registryNew_ok self.host self.hive m.2 hh, hl,
            Except.map]
        · intro e he
          rcases List.mem_cons.mp he with h | h
          · subst h
            exact ⟨hg.2, rfl, rfl⟩
          · exact hinv e h
      · exact ⟨l, by simp [keysExtract, hm, hg, hl], hinv⟩

/-- Witness for C6's theorem: a concrete local `HKCU\A` query whose
capture echoes the queried path and lists one child. -/
theorem c6_keys_self_exclusion_witness :
    HIVES.contains "HKCU" = true ∧
    ∃ l, keysOnEnd { host := "", hive := "HKCU", key := "\\A" }
          "HKEY_CURRENT_USER\\A\nHKEY_CURRENT_USER\\A\\B\n" = .ok l ∧
      ∀ e ∈ l, e.key ≠ "\\A" ∧ e.host = "" ∧ e.hive = "HKCU" :=
  ⟨by decide,
   c6_keys_self_exclusion { host := "", hive := "HKCU", key := "\\A" }
     "HKEY_CURRENT_USER\\A\nHKEY_CURRENT_USER\\A\\B\n" (by decide)⟩

/-- Scanning from inside a segment: if the rest of a grammar-valid key
tail is accepted, then what follows the current maximal segment run is
again a grammar-valid key. -/
theorem keyGrammarSeg_true_dropWhile (rest : List Char)
    (h : keyGrammarSeg rest true = true) :
    keyGrammarList (rest.dropWhile segmentChar) = true := by
  induction rest with
  | nil => rfl
  | cons c r ih =>
    by_cases hc : c = '\\'
    · subst hc
      rw [List.dropWhile_cons_of_neg (by decide)]
      simpa [keyGrammarSeg, keyGrammarList] using h
    · by_cases hs : segmentChar c
      · rw [List.dropWhile_cons_of_pos hs]
        exact ih (by simpa [keyGrammarSeg, hc, hs] using h)
      · simp [keyGrammarSeg, hc, hs] at h

/-- Scanning right after a backslash: acceptance forces a non-empty
maximal segment run, after which the remainder is again a grammar-valid
key. -/
theorem keyGrammarSeg_false_split (rest : List Char)
    (h : keyGrammarSeg rest false = true) :
    0 < (rest.takeWhile segmentChar).length ∧
    keyGrammarList (rest.dropWhile segmentChar) = true := by
  cases rest with
  | nil => exact absurd h (by decide)
  | cons c r =>
    by_cases hc : c = '\\'
    · subst hc
      simp [keyGrammarSeg] at h
    · by_cases hs : segmentChar c
      · refine ⟨by simp [List.takeWhile_cons_of_pos hs], ?_⟩
        rw [List.dropWhile_cons_of_pos hs]
        exact keyGrammarSeg_true_dropWhile r (by simpa [keyGrammarSeg, hc, hs] using h)
      · simp [keyGrammarSeg, hc, hs] at h

/-- When a character list contains no occurrence, `lastIndexOf`
reports `-1`. -/
theorem lastIndexOfChar_eq_none (t : Char) (l : List Char)
    (h : ∀ c ∈ l, c ≠ t) : lastIndexOfChar t l = none := by
  induction l with
  | nil => rfl
  | cons c r ih =>
    simp [lastIndexOfChar, ih fun c hc => h c (List.mem_cons_of_mem _ hc),
      h c (List.mem_cons_self c r)]

/-- Shifting `lastIndexOf` across a prepended chunk when the tail has
an occurrence. -/
theorem lastIndexOfChar_append (t : Char) (xs ys : List Char) (j : Nat)
    (h : lastIndexOfChar t ys = some j) :
    lastIndexOfChar t (xs ++ ys) = some (xs.length + j) := by
  induction xs with
  | nil => simpa using h
  | cons x xs ih =>
    simp only [List.cons_append, lastIndexOfChar, List.append_eq, ih, List.length_cons]
    congr 1
    omega

/-- A list starting with the sought character always has a last
occurrence. -/
theorem lastIndexOfChar_head_some (t : Char) (l : List Char) :
    ∃ j, lastIndexOfChar t (t :: l) = some j := by
  cases h : lastIndexOfChar t l with
  | none => exact ⟨0, by simp [lastIndexOfChar, h]⟩
  | some i => exact ⟨i + 1, by simp [lastIndexOfChar, h]⟩

/-- Taking past a prepended chunk. -/
theorem take_append_len (xs ys : List Char) (n : Nat) :
    (xs ++ ys).take (xs.length + n) = xs ++ ys.take n := by
  induction xs with
  | nil => simp
  | cons x xs ih =>
    have hlen : (x :: xs).length + n = (xs.length + n) + 1 := by
      simp only [List.length_cons]
      omega
    rw [hlen, List.cons_append, List.take_succ_cons, ih, List.cons_append]

/-- The segment splitter walks through a backslash-free chunk,
accumulating it. -/
theorem keySegsAux_append (seg : List Char) (h : ∀ c ∈ seg, c ≠ '\\') :
    ∀ rest' acc : List Char,
      keySegsAux (seg ++ rest') acc = keySegsAux rest' (seg.reverse ++ acc) := by
  induction seg with
  | nil => intro rest' acc; simp
  | cons c s ih =>
    intro rest' acc
    have hc : c ≠ '\\' := h c (List.mem_cons_self c s)
    rw [List.cons_append]
    simp only [keySegsAux, if_neg hc]
    rw [ih (fun d hd => h d (List.mem_cons_of_mem _ hd)) rest' (c :: acc)]
    congr 1
    simp

/-- The segment splitter never returns an empty list. -/
theorem keySegsAux_ne_nil : ∀ l acc : List Char, keySegsAux l acc ≠ [] := by
  intro l
  induction l with
  | nil => intro acc; simp [keySegsAux]
  | cons c r ih =>
    intro acc
    by_cases hc : c = '\\' <;> simp [keySegsAux, hc, ih]

/-- Segment characters are never backslashes. -/
theorem takeWhile_seg_no_backslash (rest : List Char) :
    ∀ c ∈ rest.takeWhile segmentChar, c ≠ '\\' := by
  intro x hx hxeq
  have hseg := List.mem_takeWhile_imp hx
  subst hxeq
  exact absurd hseg (by decide)

/-- On grammar-valid keys, the `lastIndexOf`/`substring` computation of
the `parent` getter removes exactly the last backslash-delimited
segment, fuel-bounded version. -/
theorem parentKeyList_eq_spec_aux :
    ∀ (N : Nat) (cs : List Char), cs.length ≤ N → keyGrammarList cs = true →
      parentKeyList cs = joinSegs ((keySegs cs).dropLast) := by
  intro N
  induction N with
  | zero =>
    intro cs hlen _
    have hnil : cs = [] := List.length_eq_zero.mp (Nat.le_zero.mp hlen)
    subst hnil
    rfl
  | succ N ih =>
    intro cs hlen hg
    cases cs with
    | nil => rfl
    | cons c rest =>
      have hc : c = '\\' := by
        by_contra hne
        simp [keyGrammarList, hne] at hg
      subst hc
      have hseg : keyGrammarSeg rest false = true := by
        simpa [keyGrammarList] using hg
      obtain ⟨hpos, hrest⟩ := keyGrammarSeg_false_split rest hseg
      have hsplit : rest.takeWhile segmentChar ++ rest.dropWhile segmentChar = rest :=
        List.takeWhile_append_dropWhile segmentChar rest
      have hnob := takeWhile_seg_no_backslash rest
      cases hrest' : rest.dropWhile segmentChar with
      | nil =>
        have hrs : rest.takeWhile segmentChar = rest := by
          rw [hrest', List.append_nil] at hsplit
          exact hsplit
        rw [hrs] at hnob
        have hnone : lastIndexOfChar '\\' rest = none :=
          lastIndexOfChar_eq_none '\\' rest hnob
        have hli : lastIndexOfChar '\\' ('\\' :: rest) = some 0 := by
          simp [lastIndexOfChar, hnone]
        have haux := keySegsAux_append rest hnob ([] : List Char) ([] : List Char)
        rw [List.append_nil] at haux
        have hks : keySegs ('\\' :: rest) = [rest] := by
          simp only [keySegs]
          rw [haux]
          simp [keySegsAux]
        rw [hks]
        simp [parentKeyList, hli, joinSegs]
      | cons c' r'' =>
        have hc' : c' = '\\' := by
          by_contra hne
          rw [hrest'] at hrest
          simp [keyGrammarList, hne] at hrest
        subst hc'
        obtain ⟨j, hj⟩ := lastIndexOfChar_head_some '\\' r''
        have hjd : lastIndexOfChar '\\' (rest.dropWhile segmentChar) = some j := by
          rw [hrest']
          exact hj
        have hlen' : (rest.dropWhile segmentChar).length ≤ N := by
          have h1 : (rest.dropWhile segmentChar).length ≤ rest.length :=
            (List.dropWhile_sublist _).length_le
          have h2 : rest.length + 1 ≤ N + 1 := by
            simpa [List.length_cons] using hlen
          omega
        have ihr := ih (rest.dropWhile segmentChar) hlen' hrest
        have hsp : '\\' :: rest =
            ('\\' :: rest.takeWhile segmentChar) ++ rest.dropWhile segmentChar := by
          rw [List.cons_append, hsplit]
        -- the last occurrence of a backslash in the whole key
        have hli : lastIndexOfChar '\\' ('\\' :: rest) =
            some (('\\' :: rest.takeWhile segmentChar).length + j) := by
          rw [hsp]
          exact lastIndexOfChar_append '\\' _ _ j hjd
        -- the code side: take up to that occurrence
        have hcode : parentKeyList ('\\' :: rest) =
            ('\\' :: rest.takeWhile segmentChar) ++
              (rest.dropWhile segmentChar).take j := by
          rw [parentKeyList, hli]
          rw [hsp]
          exact take_append_len _ _ j
        -- the spec side: the head segment survives, recursion on the tail
        have hks : keySegs ('\\' :: rest) =
            rest.takeWhile segmentChar :: keySegs (rest.dropWhile segmentChar) := by
          have haux := keySegsAux_append (rest.takeWhile segmentChar) hnob
            (rest.dropWhile segmentChar) []
          rw [hsplit] at haux
          simp only [keySegs]
          rw [haux, hrest']
          simp [keySegsAux, keySegs]
        have hne : keySegs (rest.dropWhile segmentChar) ≠ [] := by
          rw [hrest']
          simp only [keySegs]
          exact keySegsAux_ne_nil r'' []
        rw [hcode, hks, List.dropLast_cons_of_ne_nil hne]
        simp only [joinSegs]
        have hpark : (rest.dropWhile segmentChar).take j =
            joinSegs ((keySegs (rest.dropWhile segmentChar)).dropLast) := by
          have : parentKeyList (rest.dropWhile segmentChar) =
              (rest.dropWhile segmentChar).take j := by
            rw [parentKeyList, hjd]
          rw [← this, ihr]
        rw [hpark]

/-- On grammar-valid keys, the `parent` getter's key computation equals
the specification's "remove the last backslash-delimited segment". -/
theorem parentKeyList_eq_spec (cs : List Char) (h : keyGrammarList cs = true) :
    parentKeyList cs = joinSegs ((keySegs cs).dropLast) :=
  parentKeyList_eq_spec_aux cs.length cs (Nat.le_refl _) h

/-- C9: for every host and every valid hive/key combination,
construction succeeds; `parent` is the registry with the same host and
hive and the last backslash-delimited segment of the key removed; and
the hive root (empty key) is a fixpoint of `parent`. -/
theorem c9_parent (host hive key : String)
    (hh : HIVES.contains hive = true) (hk : keyGrammarFull key = true) :
    registryNew (some { host := some host, hive := some hive, key := some key }) =
      .ok { host := host, hive := hive, key := key } ∧
    parentGetter { host := host, hive := hive, key := key } =
      .ok { host := host, hive := hive, key := specParentKey key } ∧
    parentGetter { host := host, hive := hive, key := "" } =
      .ok { host := host, hive := hive, key := "" } := by
  refine ⟨registryNew_ok host hive key hh, ?_, ?_⟩
  · have h1 : parentGetter { host := host, hive := hive, key := key } =
        registryNew (some { host := some host, hive := some hive,
                            key := some (String.mk (parentKeyList key.data)) }) := rfl
    rw [h1, parentKeyList_eq_spec key.data hk]
    exact registryNew_ok host hive (specParentKey key) hh
  · have h0 : parentGetter { host := host, hive := hive, key := "" } =
        registryNew (some { host := some host, hive := some hive, key := some "" }) :=
      rfl
    rw [h0]
    exact registryNew_ok host hive "" hh

/-- Witness for C9's theorem at host `""`, hive `HKCU`, key
`\Software\Foo`. -/
theorem c9_parent_witness :
    HIVES.contains "HKCU" = true ∧ keyGrammarFull "\\Software\\Foo" = true ∧
    (registryNew (some { host := some "", hive := some "HKCU",
                         key := some "\\Software\\Foo" }) =
      .ok { host := "", hive := "HKCU", key := "\\Software\\Foo" } ∧
    parentGetter { host := "", hive := "HKCU", key := "\\Software\\Foo" } =
      .ok { host := "", hive := "HKCU", key := specParentKey "\\Software\\Foo" } ∧
    parentGetter { host := "", hive := "HKCU", key := "" } =
      .ok { host := "", hive := "HKCU", key := "" }) :=
  ⟨by decide, by decide,
   c9_parent "" "HKCU" "\\Software\\Foo" (by decide) (by decide)⟩

/-- C8 (code_bug evidence): `set` validates the value type before
anything else and fails synchronously on a type outside `REG_TYPES`;
for a legal type on a local (empty-host) registry it builds exactly
`ADD <path>` + (`/ve` for the empty name, else `/v <name>`) +
`/t <type> /d <value> /f`; but on a remote registry reading `this.path`
throws a `ReferenceError`, so no process is ever spawned there. -/
theorem c8_set :
    setInvocation { host := "remote", hive := "HKLM", key := "" } "N" "REG_SZ" "V" =
      .error .referenceError ∧
    (∀ (r : Reg) (n t v : String), REG_TYPES.contains t = false →
      setInvocation r n t v = .error .illegalType) ∧
    (∀ (r : Reg) (n t v : String), r.host = "" → REG_TYPES.contains t = true →
      setInvocation r n t v =
        .ok (["ADD", r.hive ++ r.key] ++ (if n = "" then ["/ve"] else ["/v", n]) ++
          ["/t", t, "/d", v, "/f"])) := by
  refine ⟨by decide, ?_, ?_⟩
  · intro r n t v ht
    unfold setInvocation
    rw [ht]
    simp
  · intro r n t v hhost ht
    unfold setInvocation
    rw [ht]
    simp [pathGetter, hhost]

/-- Witness for C8's theorem: an unknown type is rejected, a legal type
on a local registry produces the documented argument vector. -/
theorem c8_set_witness :
    REG_TYPES.contains "BAD" = false ∧
    setInvocation { host := "", hive := "HKLM", key := "\\foo" } "N" "BAD" "V" =
      .error .illegalType ∧
    REG_TYPES.contains "REG_SZ" = true ∧
    setInvocation { host := "", hive := "HKLM", key := "\\foo" } "" "REG_SZ" "V" =
      .ok (["ADD", "HKLM" ++ "\\foo"] ++
        (if ("" : String) = "" then ["/ve"] else ["/v", ""]) ++
        ["/t", "REG_SZ", "/d", "V", "/f"]) :=
  ⟨by decide,
   c8_set.2.1 { host := "", hive := "HKLM", key := "\\foo" } "N" "BAD" "V" (by decide),
   by decide,
   c8_set.2.2 { host := "", hive := "HKLM", key := "\\foo" } "" "REG_SZ" "V" rfl
     (by decide)⟩

end Winreg
